import Mathlib

/-!
Shallow embedding of the `copy_src_to_class` tool (`src/main.rs`).

Paths are modelled as lists of path segments (`Path := List String`), a
filesystem snapshot as the lists of its regular files (with byte contents)
and of its directories, and file contents as `List Nat` where every byte of
a real file is `< 256` (Rust `u8`).  I/O failures other than the ones the
program itself branches on (missing paths, short reads, bad magic) are not
modelled: in this snapshot model, opening an existing file always succeeds.
-/

set_option maxRecDepth 4000

namespace CopySrcToClass

/-- A filesystem path, as its list of components. -/
abbrev Path := List String

/-- One filesystem snapshot: regular files (path and byte content) and
directories.  Mirrors what the program observes through `fs` / `walkdir`. -/
structure FS where
  files : List (Path × List Nat)
  dirs : List Path
deriving Repr, DecidableEq

/-- `Path::exists` would be true for a regular file at `p`. -/
def fsIsFile (fs : FS) (p : Path) : Bool :=
  fs.files.any (fun f => f.1 == p)

/-- `p` is a directory of the snapshot. -/
def fsIsDir (fs : FS) (p : Path) : Bool :=
  fs.dirs.any (fun d => d == p)

/-- Rust `Path::exists`: something (file or directory) lives at `p`. -/
def fsExists (fs : FS) (p : Path) : Bool :=
  fsIsFile fs p || fsIsDir fs p

/-- Content of the regular file at `p`, when one exists. -/
def fsContent (fs : FS) (p : Path) : Option (List Nat) :=
  (fs.files.find? (fun f => f.1 == p)).map (fun f => f.2)

/-- Index of the last '.' in a file name, if any. -/
def lastDotIdx (cs : List Char) : Option Nat :=
  ((cs.enum.filter (fun ic => ic.2 == '.')).getLast?).map (fun ic => ic.1)

/-- Rust `Path::file_stem` on a file name: everything before the last '.',
except that a name without a dot, or whose only dot is leading, is its own
stem. -/
def rustFileStem (name : String) : String :=
  match lastDotIdx name.data with
  | none => name
  | some 0 => name
  | some k => ⟨name.data.take k⟩

/-- Rust `Path::extension` on a file name: everything after the last '.',
absent when there is no dot or the only dot is leading. -/
def rustExtension (name : String) : Option String :=
  match lastDotIdx name.data with
  | none => none
  | some 0 => none
  | some k => some ⟨name.data.drop (k + 1)⟩

/-- Rust `Path::file_name` of a segment-list path: its last segment. -/
def pathFileName (p : Path) : Option String :=
  p.getLast?

/-- Rust `Path::file_stem` of a path. -/
def pathFileStem (p : Path) : Option String :=
  (p.getLast?).map rustFileStem

/-- Rust `Path::extension` of a path. -/
def pathExtension (p : Path) : Option String :=
  (p.getLast?).bind rustExtension

/-- Rust `java_rel_path.parent().unwrap_or(Path::new(""))`: drop the last
segment; the empty path stands for `""`. -/
def pathParent (p : Path) : Path :=
  p.dropLast

/-- `src/main.rs` `struct JavaClassVersion`: the class-file version header
fields (`u16` values). -/
structure JavaClassVersion where
  major : Nat
  minor : Nat
deriving Repr, DecidableEq

/-- `JavaClassVersion::to_jdk_version` (`src/main.rs:35`): map a class-file
major version to the human-readable JDK label; majors outside 45..65 fall
through to a formatted fallback embedding the raw major. -/
def JavaClassVersion.to_jdk_version (v : JavaClassVersion) : String :=
  match v.major with
  | 45 => "JDK 1.1"
  | 46 => "JDK 1.2"
  | 47 => "JDK 1.3"
  | 48 => "JDK 1.4"
  | 49 => "JDK 5"
  | 50 => "JDK 6"
  | 51 => "JDK 7"
  | 52 => "JDK 8"
  | 53 => "JDK 9"
  | 54 => "JDK 10"
  | 55 => "JDK 11"
  | 56 => "JDK 12"
  | 57 => "JDK 13"
  | 58 => "JDK 14"
  | 59 => "JDK 15"
  | 60 => "JDK 16"
  | 61 => "JDK 17"
  | 62 => "JDK 18"
  | 63 => "JDK 19"
  | 64 => "JDK 20"
  | 65 => "JDK 21"
  | _ => "未知JDK版本 (major: " ++ toString v.major ++ ")"

/-- The two error exits of `read_class_file_version` distinguished by the
spec: a short read (`read_exact` fails) and a wrong magic number. -/
inductive ReadVersionError where
  | malformedArtifact
  | invalidMagicNumber
deriving Repr, DecidableEq

/-- Decidable equality of `Except` results, for evaluating the model on
concrete inputs. -/
instance {e a : Type _} [DecidableEq e] [DecidableEq a] : DecidableEq (Except e a) := fun x y =>
  match x, y with
  | .error e1, .error e2 =>
    if h : e1 = e2 then .isTrue (by rw [h])
    else .isFalse (fun hh => h (by injection hh))
  | .ok a1, .ok a2 =>
    if h : a1 = a2 then .isTrue (by rw [h])
    else .isFalse (fun hh => h (by injection hh))
  | .error _, .ok _ => .isFalse (fun hh => by injection hh)
  | .ok _, .error _ => .isFalse (fun hh => by injection hh)

/-- `read_class_file_version` (`src/main.rs:289`), on the file's bytes:
read the first 8 bytes into a buffer (failing when fewer than 8 are
available), check the `0xCAFEBABE` magic, then assemble the big-endian
`u16` minor (bytes 4,5) and major (bytes 6,7).  `(b4 as u16) << 8 | b5`
equals `b4 * 256 + b5` for `u8` inputs. -/
def read_class_file_version (content : List Nat) : Except ReadVersionError JavaClassVersion :=
  if content.length < 8 then
    .error .malformedArtifact
  else if !(content.getD 0 0 == 0xCA) || !(content.getD 1 0 == 0xFE)
       || !(content.getD 2 0 == 0xBA) || !(content.getD 3 0 == 0xBE) then
    .error .invalidMagicNumber
  else
    .ok { major := content.getD 6 0 * 256 + content.getD 7 0
        , minor := content.getD 4 0 * 256 + content.getD 5 0 }

/-- `path.extension().map_or(false, |ext| ext == "java")`. -/
def isJavaPath (p : Path) : Bool :=
  pathExtension p == some "java"

/-- Every entry `WalkDir::new root` visits: the root itself plus everything
below it (entries whose segment list extends `root`); files are listed
before directories, a fixed deterministic order standing in for the
directory order of one run.  A nonexistent root yields no entries. -/
def walkAll (fs : FS) (root : Path) : List Path :=
  (fs.files.map (fun f => f.1) ++ fs.dirs).filter (fun p => root.isPrefixOf p)

/-- `collect_source_files` (`src/main.rs:230`): walk `source_dir`, keep the
regular files, and split them on the `java` extension.  `TraversalError`
(an unreadable directory) is outside the snapshot model, so the `Result`
wrapper of the original is dropped. -/
def collect_source_files (fs : FS) (source_dir : Path) : List Path × List Path :=
  let entries := (walkAll fs source_dir).filter (fun p => fsIsFile fs p)
  (entries.filter (fun p => isJavaPath p), entries.filter (fun p => !isJavaPath p))

/-- The entries `WalkDir::new(dir).max_depth(1)` can visit below the root:
files and directories exactly one segment below `dir`. -/
def directChildren (fs : FS) (dir : Path) : List Path :=
  (fs.files.map (fun f => f.1) ++ fs.dirs).filter
    (fun p => !p.isEmpty && p.dropLast == dir)

/-- Rust `str::starts_with` on strings, via the character lists (the
byte-position loop of `String.isPrefixOf` does not evaluate by reduction,
so the structurally recursive list version is used). -/
def strStartsWith (pre s : String) : Bool :=
  pre.data.isPrefixOf s.data

/-- The filter of the `find_class_files` loop body (`src/main.rs:273`): a
regular file with the `class` extension whose stem is the unit's stem, or
the unit's stem followed by `$`.  A walked regular file always has a file
name, so the `with_context` failure on a missing stem cannot fire; it is
rendered as a non-match. -/
def classFileMatches (fs : FS) (stem : String) (p : Path) : Bool :=
  fsIsFile fs p && pathExtension p == some "class" &&
    (match pathFileStem p with
     | some fn => fn == stem || strStartsWith (stem ++ "$") fn
     | none => false)

/-- `find_class_files` (`src/main.rs:251`): resolve one source unit's
relative path against the class root.  When the joined package path does
not exist the result is an empty list; otherwise the walk visits the
package path itself (depth 0) and its direct children (depth 1) and keeps
the matching class files. -/
def find_class_files (fs : FS) (class_dir : Path) (java_rel_path : Path) :
    Except String (List Path) :=
  match pathFileStem java_rel_path with
  | none => .error "无法获取文件名"
  | some stem =>
    let class_dir_with_package := class_dir ++ pathParent java_rel_path
    if fsExists fs class_dir_with_package = false then
      .ok []
    else
      .ok ((class_dir_with_package :: directChildren fs class_dir_with_package).filter
        (fun p => classFileMatches fs stem p))

/-- The resolution loop of `main` (`src/main.rs:91`): per source file, take
the path relative to `source_dir`, resolve it, abort on the first unit with
no matches (`failed` / the `bail!` at `src/main.rs:108`), and record the
unit's class files. -/
def resolveAll (fs : FS) (source_dir class_dir : Path) :
    List Path → Except String (List (Path × List Path))
  | [] => .ok []
  | j :: rest =>
    if source_dir.isPrefixOf j then
      let rel := j.drop source_dir.length
      match find_class_files fs class_dir rel with
      | .error e => .error e
      | .ok [] => .error "部分Java文件找不到对应的class文件，操作取消"
      | .ok cs =>
        match resolveAll fs source_dir class_dir rest with
        | .error e => .error e
        | .ok rs => .ok ((rel, cs) :: rs)
    else .error "无法获取相对路径"

/-- The non-Java copy loop of `main` (`src/main.rs:118`): for each file take
the relative path, read its metadata, emit one copy into the output tree,
and count it.  The copies already performed are returned even when a later
step fails. -/
def copyNonJavaGo (fs : FS) (source_dir output_dir : Path) :
    List Path → List (Path × Path) × Except String Nat
  | [] => ([], .ok 0)
  | f :: rest =>
    if source_dir.isPrefixOf f then
      match fsContent fs f with
      | none => ([], .error "无法获取文件元数据")
      | some _ =>
        ((f, output_dir ++ f.drop source_dir.length) ::
           (copyNonJavaGo fs source_dir output_dir rest).1,
         (copyNonJavaGo fs source_dir output_dir rest).2.map (fun n => n + 1))
    else ([], .error "无法获取相对路径")

/-- `jdk_versions.entry(v).or_insert_with(Vec::new).push(class_file)`, on
the tally rendered as an association list in first-insertion order. -/
def tallyAdd : List (String × List Path) → String → Path → List (String × List Path)
  | [], l, p => [(l, [p])]
  | (k, ps) :: rest, l, p =>
    if k = l then (k, ps ++ [p]) :: rest else (k, ps) :: tallyAdd rest l p

/-- Version lookup of one matched class file (the `match` at
`src/main.rs:171`): a successful decode yields its JDK label and enters the
tally; a failed decode is downgraded to the unknown-version marker and
leaves the tally alone.  A missing file would make `File::open` fail, which
the same `match` also downgrades. -/
def classifyVersion (fs : FS) (p : Path) (tally : List (String × List Path)) :
    String × List (String × List Path) :=
  match fsContent fs p with
  | none => ("未知版本", tally)
  | some bytes =>
    match read_class_file_version bytes with
    | .ok v => (v.to_jdk_version, tallyAdd tally v.to_jdk_version p)
    | .error _ => ("未知版本", tally)

/-- One report line of the class-file copy loop. -/
structure ArtifactReport where
  sourceUnit : Path
  classRel : Path
  fileSize : Nat
  jdkLabel : String
deriving Repr, DecidableEq

/-- The class-file copy loop of `main` (`src/main.rs:151`), flattened to
its per-`(source unit, class file)` iterations: take the path relative to
`class_dir`, read the size, classify the version, report, copy, count.
Returns the copies, the report lines, the final tally and the count (or the
first fatal error). -/
def processArtifacts (fs : FS) (class_dir output_dir : Path) :
    List (Path × Path) → List (String × List Path) →
    List (Path × Path) × List ArtifactReport × List (String × List Path) × Except String Nat
  | [], tally => ([], [], tally, .ok 0)
  | (jr, cf) :: rest, tally =>
    if class_dir.isPrefixOf cf then
      match fsContent fs cf with
      | none => ([], [], tally, .error "无法获取文件元数据")
      | some bytes =>
        ((cf, output_dir ++ cf.drop class_dir.length) ::
           (processArtifacts fs class_dir output_dir rest (classifyVersion fs cf tally).2).1,
         ⟨jr, cf.drop class_dir.length, bytes.length, (classifyVersion fs cf tally).1⟩ ::
           (processArtifacts fs class_dir output_dir rest (classifyVersion fs cf tally).2).2.1,
         (processArtifacts fs class_dir output_dir rest (classifyVersion fs cf tally).2).2.2.1,
         (processArtifacts fs class_dir output_dir rest
             (classifyVersion fs cf tally).2).2.2.2.map (fun n => n + 1))
    else ([], [], tally, .error "无法获取相对路径")

/-- The summary `main` prints (`src/main.rs:206`), plus the warning flag of
the multi-version check (`src/main.rs:213`). -/
structure Summary where
  numSources : Nat
  numClass : Nat
  numNonJava : Nat
  totalCopied : Nat
  jdkVersions : List (String × List Path)
  multiVersionWarning : Bool
  artifactReports : List ArtifactReport
deriving Repr, DecidableEq

/-- `main` (`src/main.rs:63`) after argument parsing, over one filesystem
snapshot: existence checks on the two input roots, scan, resolve-all with
the all-or-nothing bail, the two copy phases, and the summary.  The first
component is the trace of copies actually performed (source, target), kept
also on the error exits; output-directory creation and logging are I/O and
are not modelled. -/
def runMain (fs : FS) (source_dir class_dir output_dir : Path) :
    List (Path × Path) × Except String Summary :=
  if fsExists fs source_dir = false then ([], .error "源代码路径不存在")
  else if fsExists fs class_dir = false then ([], .error "Class路径不存在")
  else
    match resolveAll fs source_dir class_dir (collect_source_files fs source_dir).1 with
    | .error e => ([], .error e)
    | .ok resolved =>
      let nj := copyNonJavaGo fs source_dir output_dir (collect_source_files fs source_dir).2
      let pa := processArtifacts fs class_dir output_dir
                  (resolved.flatMap (fun rc => rc.2.map (fun c => (rc.1, c)))) []
      match nj.2 with
      | .error e => (nj.1, .error e)
      | .ok njCount =>
        match pa.2.2.2 with
        | .error e => (nj.1 ++ pa.1, .error e)
        | .ok cCount =>
          (nj.1 ++ pa.1,
           .ok { numSources := resolved.length
               , numClass := cCount
               , numNonJava := njCount
               , totalCopied := cCount + njCount
               , jdkVersions := pa.2.2.1
               , multiVersionWarning := decide (1 < pa.2.2.1.length)
               , artifactReports := pa.2.1 })

/-- A sane filesystem snapshot: file paths are nonempty, no path is both a
file and a directory, every path is reachable through existing parent
directories, and paths are listed once. -/
def FS.WF (fs : FS) : Prop :=
  (∀ f ∈ fs.files, f.1 ≠ [] ∧ f.1 ∉ fs.dirs ∧ ∀ i < f.1.length, f.1.take i ∈ fs.dirs) ∧
  (∀ d ∈ fs.dirs, ∀ i < d.length, d.take i ∈ fs.dirs) ∧
  (fs.files.map Prod.fst).Nodup ∧ fs.dirs.Nodup

instance (fs : FS) : Decidable fs.WF := by
  unfold FS.WF
  infer_instance

/-- The file list a tally associates with one label (empty when the label
is not in the tally). -/
def tallyLookup (t : List (String × List Path)) (l : String) : List Path :=
  match t.find? (fun kv => kv.1 == l) with
  | some kv => kv.2
  | none => []

/-- Fold a sequence of (label, file) pairs into a tally. -/
def tallyFold (t : List (String × List Path)) (dec : List (String × Path)) :
    List (String × List Path) :=
  dec.foldl (fun acc q => tallyAdd acc q.1 q.2) t

/-- The tally entry one class file contributes: its toolchain label when
its header decodes successfully, nothing otherwise. -/
def decodeLabelOf (fs : FS) (p : Path) : Option (String × Path) :=
  match fsContent fs p with
  | none => none
  | some bytes =>
    match read_class_file_version bytes with
    | .ok v => some (v.to_jdk_version, p)
    | .error _ => none

/-- The (label, file) pairs of the class files whose version header decodes
successfully, in copy order: exactly the entries the run's tally receives. -/
def decodedLabelPairs (fs : FS) (cfs : List Path) : List (String × Path) :=
  cfs.filterMap (decodeLabelOf fs)

/-- The 21 fixed toolchain labels of `to_jdk_version` (majors 45..65). -/
def jdkFixedLabels : List String :=
  [ "JDK 1.1", "JDK 1.2", "JDK 1.3", "JDK 1.4", "JDK 5", "JDK 6", "JDK 7"
  , "JDK 8", "JDK 9", "JDK 10", "JDK 11", "JDK 12", "JDK 13", "JDK 14"
  , "JDK 15", "JDK 16", "JDK 17", "JDK 18", "JDK 19", "JDK 20", "JDK 21" ]

/-- An 8-byte class-file header with major version 52 (JDK 8). -/
def hdr52 : List Nat := [0xCA, 0xFE, 0xBA, 0xBE, 0, 0, 0, 52]

/-- An 8-byte class-file header with major version 55 (JDK 11). -/
def hdr55 : List Nat := [0xCA, 0xFE, 0xBA, 0xBE, 0, 0, 0, 55]

/-- A class tree with a unit's primary, nested and unlike-named sibling
artifacts. -/
def fsC1w : FS :=
  { files := [ (["cls", "pkg", "Stem.class"], hdr52)
             , (["cls", "pkg", "Stem$1.class"], hdr52)
             , (["cls", "pkg", "Stem$Foo.class"], hdr52)
             , (["cls", "pkg", "StemOther.class"], hdr52) ]
  , dirs := [[], ["cls"], ["cls", "pkg"]] }

/-- A snapshot where the package path of unit `B.class/B.java` is occupied
by a regular file named `B.class`. -/
def fsC1x : FS :=
  { files := [(["out", "B.class"], [])]
  , dirs := [[], ["out"]] }

/-- A source tree with two units of which the first has no artifacts and
the second would match. -/
def fsC3w : FS :=
  { files := [ (["s", "A.java"], [5])
             , (["s", "B.java"], [6])
             , (["c", "B.class"], hdr52) ]
  , dirs := [[], ["s"], ["c"]] }

/-- The end-to-end scenario of the spec: one unit `pkg/A.java`, two
non-source files, artifacts `pkg/A.class` (major 52) and `pkg/A$1.class`
(major 55). -/
def fsC5 : FS :=
  { files := [ (["s", "pkg", "A.java"], [107])
             , (["s", "pkg", "notes.txt"], [1, 2])
             , (["s", "README.md"], [3])
             , (["c", "pkg", "A.class"], hdr52)
             , (["c", "pkg", "A$1.class"], hdr55) ]
  , dirs := [[], ["s"], ["s", "pkg"], ["c"], ["c", "pkg"]] }

/-- The copies the run on `fsC5` performs. -/
def actsC5 : List (Path × Path) :=
  [ (["s", "pkg", "notes.txt"], ["o", "pkg", "notes.txt"])
  , (["s", "README.md"], ["o", "README.md"])
  , (["c", "pkg", "A.class"], ["o", "pkg", "A.class"])
  , (["c", "pkg", "A$1.class"], ["o", "pkg", "A$1.class"]) ]

/-- The summary the run on `fsC5` produces. -/
def sC5 : Summary :=
  { numSources := 1
  , numClass := 2
  , numNonJava := 2
  , totalCopied := 4
  , jdkVersions := [ ("JDK 8", [["c", "pkg", "A.class"]])
                   , ("JDK 11", [["c", "pkg", "A$1.class"]]) ]
  , multiVersionWarning := true
  , artifactReports := [ ⟨["pkg", "A.java"], ["pkg", "A.class"], 8, "JDK 8"⟩
                       , ⟨["pkg", "A.java"], ["pkg", "A$1.class"], 8, "JDK 11"⟩ ] }

/-- One unit with two decodable artifacts (majors 52 and 55) and one
artifact `A$2.class` whose 8-byte header has a wrong magic number. -/
def fsC6 : FS :=
  { files := [ (["s", "A.java"], [9])
             , (["c", "A.class"], hdr52)
             , (["c", "A$1.class"], hdr55)
             , (["c", "A$2.class"], [1, 2, 3, 4, 5, 6, 7, 8]) ]
  , dirs := [[], ["s"], ["c"]] }

/-- The copies the run on `fsC6` performs. -/
def actsC6 : List (Path × Path) :=
  [ (["c", "A.class"], ["o", "A.class"])
  , (["c", "A$1.class"], ["o", "A$1.class"])
  , (["c", "A$2.class"], ["o", "A$2.class"]) ]

/-- The summary the run on `fsC6` produces. -/
def sC6 : Summary :=
  { numSources := 1
  , numClass := 3
  , numNonJava := 0
  , totalCopied := 3
  , jdkVersions := [ ("JDK 8", [["c", "A.class"]])
                   , ("JDK 11", [["c", "A$1.class"]]) ]
  , multiVersionWarning := true
  , artifactReports := [ ⟨["A.java"], ["A.class"], 8, "JDK 8"⟩
                       , ⟨["A.java"], ["A$1.class"], 8, "JDK 11"⟩
                       , ⟨["A.java"], ["A$2.class"], 8, "未知版本"⟩ ] }

/-- One unit whose two artifacts decode to two different labels. -/
def fsC7w : FS :=
  { files := [ (["s", "A.java"], [9])
             , (["c", "A.class"], hdr52)
             , (["c", "A$1.class"], hdr55) ]
  , dirs := [[], ["s"], ["c"]] }

/-- The copies the run on `fsC7w` performs. -/
def actsC7 : List (Path × Path) :=
  [ (["c", "A.class"], ["o", "A.class"])
  , (["c", "A$1.class"], ["o", "A$1.class"]) ]

/-- The summary the run on `fsC7w` produces. -/
def sC7 : Summary :=
  { numSources := 1
  , numClass := 2
  , numNonJava := 0
  , totalCopied := 2
  , jdkVersions := [ ("JDK 8", [["c", "A.class"]])
                   , ("JDK 11", [["c", "A$1.class"]]) ]
  , multiVersionWarning := true
  , artifactReports := [ ⟨["A.java"], ["A.class"], 8, "JDK 8"⟩
                       , ⟨["A.java"], ["A$1.class"], 8, "JDK 11"⟩ ] }

/-- A small source tree with java and non-java files, one in a
subdirectory. -/
def fsC9w : FS :=
  { files := [ (["r", "X.java"], [])
             , (["r", "y.txt"], [])
             , (["r", "sub", "Z.java"], []) ]
  , dirs := [[], ["r"], ["r", "sub"]] }

/-- One unit with one artifact plus one auxiliary non-source file. -/
def fsC10w : FS :=
  { files := [ (["s", "A.java"], [1])
             , (["s", "kit.txt"], [2])
             , (["c", "A.class"], hdr52) ]
  , dirs := [[], ["s"], ["c"]] }

/-- The copies the run on `fsC10w` performs. -/
def actsC10 : List (Path × Path) :=
  [ (["s", "kit.txt"], ["o", "kit.txt"])
  , (["c", "A.class"], ["o", "A.class"]) ]

/-- The summary the run on `fsC10w` produces. -/
def sC10 : Summary :=
  { numSources := 1
  , numClass := 1
  , numNonJava := 1
  , totalCopied := 2
  , jdkVersions := [("JDK 8", [["c", "A.class"]])]
  , multiVersionWarning := false
  , artifactReports := [⟨["A.java"], ["A.class"], 8, "JDK 8"⟩] }

/-! ## General lemmas -/

theorem isPrefixOf_iff_append {α : Type _} [BEq α] [LawfulBEq α] (l₁ l₂ : List α) :
    l₁.isPrefixOf l₂ = true ↔ ∃ t, l₂ = l₁ ++ t := by
  induction l₁ generalizing l₂ with
  | nil => simp [List.isPrefixOf]
  | cons a as ih =>
    cases l₂ with
    | nil => simp [List.isPrefixOf]
    | cons b bs =>
      simp only [List.isPrefixOf, Bool.and_eq_true, beq_iff_eq, ih, List.cons_append]
      constructor
      · rintro ⟨rfl, t, rfl⟩
        exact ⟨t, rfl⟩
      · rintro ⟨t, ht⟩
        injection ht with h1 h2
        exact ⟨h1.symm, t, h2⟩

theorem getD_take_eight (c : List Nat) (i : Nat) (h : i < 8) :
    (c.take 8).getD i 0 = c.getD i 0 := by
  simp [List.getD_eq_getElem?_getD, List.getElem?_take, h]

/-! ## Header decoder: C2 and C4 -/

theorem decode_eq_of_short (c : List Nat) (h : c.length < 8) :
    read_class_file_version c = .error .malformedArtifact := by
  unfold read_class_file_version
  rw [if_pos h]

theorem decode_eq_of_badmagic (c : List Nat) (h8 : ¬c.length < 8)
    (hm : ¬(c.getD 0 0 = 0xCA ∧ c.getD 1 0 = 0xFE ∧ c.getD 2 0 = 0xBA ∧ c.getD 3 0 = 0xBE)) :
    read_class_file_version c = .error .invalidMagicNumber := by
  unfold read_class_file_version
  rw [if_neg h8, if_pos ?hc]
  case hc =>
    simp only [Bool.or_eq_true, Bool.not_eq_true', beq_eq_false_iff_ne, ne_eq]
    tauto

theorem decode_eq_of_magic (c : List Nat) (h8 : ¬c.length < 8)
    (h0 : c.getD 0 0 = 0xCA) (h1 : c.getD 1 0 = 0xFE)
    (h2 : c.getD 2 0 = 0xBA) (h3 : c.getD 3 0 = 0xBE) :
    read_class_file_version c =
      .ok { major := c.getD 6 0 * 256 + c.getD 7 0
          , minor := c.getD 4 0 * 256 + c.getD 5 0 } := by
  unfold read_class_file_version
  rw [if_neg h8, h0, h1, h2, h3]
  rfl

/-- C2: `read_class_file_version` depends only on the first 8 bytes of the
file; whenever at least 8 bytes are present and the first 4 are
`CA FE BA BE`, it succeeds with the big-endian 16-bit minor version from
bytes 5-6 and the big-endian 16-bit major version from bytes 7-8; in
particular every file starting `CA FE BA BE 00 00 00 34` decodes to
minor 0, major 52. -/
theorem C2_decode_version :
    (∀ c1 c2 : List Nat, c1.take 8 = c2.take 8 →
       read_class_file_version c1 = read_class_file_version c2) ∧
    (∀ c : List Nat, 8 ≤ c.length →
       c.getD 0 0 = 0xCA → c.getD 1 0 = 0xFE → c.getD 2 0 = 0xBA → c.getD 3 0 = 0xBE →
       read_class_file_version c =
         .ok { major := c.getD 6 0 * 256 + c.getD 7 0
             , minor := c.getD 4 0 * 256 + c.getD 5 0 }) ∧
    (∀ rest : List Nat,
       read_class_file_version ([0xCA, 0xFE, 0xBA, 0xBE, 0, 0, 0, 0x34] ++ rest) =
         .ok { major := 52, minor := 0 }) := by
  have hdep : ∀ c1 c2 : List Nat, c1.take 8 = c2.take 8 →
      read_class_file_version c1 = read_class_file_version c2 := by
    intro c1 c2 h
    have hlen : min 8 c1.length = min 8 c2.length := by
      have := congrArg List.length h
      simpa [List.length_take] using this
    have hlt : c1.length < 8 ↔ c2.length < 8 := by omega
    have hg : ∀ i, i < 8 → c1.getD i 0 = c2.getD i 0 := by
      intro i hi
      rw [← getD_take_eight c1 i hi, ← getD_take_eight c2 i hi, h]
    unfold read_class_file_version
    rw [hg 0 (by omega), hg 1 (by omega), hg 2 (by omega), hg 3 (by omega),
        hg 4 (by omega), hg 5 (by omega), hg 6 (by omega), hg 7 (by omega)]
    by_cases h1 : c1.length < 8
    · rw [if_pos h1, if_pos (hlt.mp h1)]
    · rw [if_neg h1, if_neg (fun hc => h1 (hlt.mpr hc))]
  refine ⟨hdep, ?_, ?_⟩
  · intro c h8 h0 h1 h2 h3
    exact decode_eq_of_magic c (by omega) h0 h1 h2 h3
  · intro rest
    have h : ([0xCA, 0xFE, 0xBA, 0xBE, 0, 0, 0, 0x34] ++ rest).take 8 =
        ([0xCA, 0xFE, 0xBA, 0xBE, 0, 0, 0, 0x34] : List Nat).take 8 := by
      rw [show (8 : Nat) = ([0xCA, 0xFE, 0xBA, 0xBE, 0, 0, 0, 0x34] : List Nat).length from rfl,
          List.take_left]
      rfl
    rw [hdep _ _ h]
    rfl

/-- C2 witness: the determinism, success and fixed-header parts at concrete
inputs. -/
theorem C2_decode_version_witness :
    read_class_file_version ([0xCA, 0xFE, 0xBA, 0xBE, 0, 0, 0, 0x34] ++ [7, 7]) =
      read_class_file_version [0xCA, 0xFE, 0xBA, 0xBE, 0, 0, 0, 0x34, 9] ∧
    read_class_file_version [0xCA, 0xFE, 0xBA, 0xBE, 1, 2, 3, 4] =
      .ok { major := 3 * 256 + 4, minor := 1 * 256 + 2 } ∧
    read_class_file_version ([0xCA, 0xFE, 0xBA, 0xBE, 0, 0, 0, 0x34] ++ [1, 2, 3]) =
      .ok { major := 52, minor := 0 } :=
  ⟨C2_decode_version.1 _ _ (by decide),
   C2_decode_version.2.1 [0xCA, 0xFE, 0xBA, 0xBE, 1, 2, 3, 4]
     (by decide) (by decide) (by decide) (by decide) (by decide),
   C2_decode_version.2.2 [1, 2, 3]⟩

/-- C4: the decoder fails with `malformedArtifact` exactly on files shorter
than 8 bytes, fails with `invalidMagicNumber` exactly when at least 8 bytes
are present but the first 4 are not `CA FE BA BE`, and succeeds on every
8-byte-or-longer file with the right magic, whatever the version bytes. -/
theorem C4_decode_errors (c : List Nat) :
    (read_class_file_version c = .error .malformedArtifact ↔ c.length < 8) ∧
    (read_class_file_version c = .error .invalidMagicNumber ↔
       (8 ≤ c.length ∧
        ¬(c.getD 0 0 = 0xCA ∧ c.getD 1 0 = 0xFE ∧ c.getD 2 0 = 0xBA ∧ c.getD 3 0 = 0xBE))) ∧
    (8 ≤ c.length → c.getD 0 0 = 0xCA → c.getD 1 0 = 0xFE → c.getD 2 0 = 0xBA →
       c.getD 3 0 = 0xBE → ∃ v, read_class_file_version c = .ok v) := by
  by_cases hl : c.length < 8
  · have he := decode_eq_of_short c hl
    refine ⟨by simp [he, hl], ?_, ?_⟩
    · rw [he]
      constructor
      · intro h
        simp at h
      · intro h
        exact absurd h.1 (by omega)
    · intro h
      exact absurd h (by omega)
  · by_cases hm : c.getD 0 0 = 0xCA ∧ c.getD 1 0 = 0xFE ∧ c.getD 2 0 = 0xBA ∧ c.getD 3 0 = 0xBE
    · obtain ⟨h0, h1, h2, h3⟩ := hm
      have he := decode_eq_of_magic c hl h0 h1 h2 h3
      refine ⟨by simp [he, hl], ?_, ?_⟩
      · rw [he]
        constructor
        · intro h
          simp at h
        · rintro ⟨h8, hno⟩
          exact absurd ⟨h0, h1, h2, h3⟩ hno
      · intro _ _ _ _ _
        exact ⟨_, he⟩
    · have he := decode_eq_of_badmagic c hl hm
      refine ⟨?_, ?_, ?_⟩
      · rw [he]
        constructor
        · intro h
          simp at h
        · intro h
          exact absurd h hl
      · rw [he]
        exact ⟨fun _ => ⟨by omega, hm⟩, fun _ => rfl⟩
      · intro _ h0 h1 h2 h3
        exact absurd ⟨h0, h1, h2, h3⟩ hm

/-- C4 witness: a short file, a wrong-magic file and a well-formed header
with arbitrary version bytes. -/
theorem C4_decode_errors_witness :
    read_class_file_version [0xCA] = .error .malformedArtifact ∧
    read_class_file_version [1, 2, 3, 4, 5, 6, 7, 8] = .error .invalidMagicNumber ∧
    ∃ v, read_class_file_version [0xCA, 0xFE, 0xBA, 0xBE, 9, 9, 9, 9] = .ok v :=
  ⟨(C4_decode_errors [0xCA]).1.mpr (by decide),
   (C4_decode_errors [1, 2, 3, 4, 5, 6, 7, 8]).2.1.mpr (by decide),
   (C4_decode_errors [0xCA, 0xFE, 0xBA, 0xBE, 9, 9, 9, 9]).2.2
     (by decide) (by decide) (by decide) (by decide) (by decide)⟩

/-! ## Toolchain labels: C8 -/

/-- C8: `to_jdk_version` is total: majors 45..65 map to the fixed labels
(52 to "JDK 8"), independent of the minor version; every other major maps,
without failing, to the fallback label embedding the raw major; the label
of 999 embeds "999" and differs from all 21 fixed labels. -/
theorem C8_label_for :
    (∀ minor : Nat,
      (JavaClassVersion.mk 45 minor).to_jdk_version = "JDK 1.1" ∧
      (JavaClassVersion.mk 46 minor).to_jdk_version = "JDK 1.2" ∧
      (JavaClassVersion.mk 47 minor).to_jdk_version = "JDK 1.3" ∧
      (JavaClassVersion.mk 48 minor).to_jdk_version = "JDK 1.4" ∧
      (JavaClassVersion.mk 49 minor).to_jdk_version = "JDK 5" ∧
      (JavaClassVersion.mk 50 minor).to_jdk_version = "JDK 6" ∧
      (JavaClassVersion.mk 51 minor).to_jdk_version = "JDK 7" ∧
      (JavaClassVersion.mk 52 minor).to_jdk_version = "JDK 8" ∧
      (JavaClassVersion.mk 53 minor).to_jdk_version = "JDK 9" ∧
      (JavaClassVersion.mk 54 minor).to_jdk_version = "JDK 10" ∧
      (JavaClassVersion.mk 55 minor).to_jdk_version = "JDK 11" ∧
      (JavaClassVersion.mk 56 minor).to_jdk_version = "JDK 12" ∧
      (JavaClassVersion.mk 57 minor).to_jdk_version = "JDK 13" ∧
      (JavaClassVersion.mk 58 minor).to_jdk_version = "JDK 14" ∧
      (JavaClassVersion.mk 59 minor).to_jdk_version = "JDK 15" ∧
      (JavaClassVersion.mk 60 minor).to_jdk_version = "JDK 16" ∧
      (JavaClassVersion.mk 61 minor).to_jdk_version = "JDK 17" ∧
      (JavaClassVersion.mk 62 minor).to_jdk_version = "JDK 18" ∧
      (JavaClassVersion.mk 63 minor).to_jdk_version = "JDK 19" ∧
      (JavaClassVersion.mk 64 minor).to_jdk_version = "JDK 20" ∧
      (JavaClassVersion.mk 65 minor).to_jdk_version = "JDK 21") ∧
    (∀ major minor : Nat, major < 45 ∨ 65 < major →
      (JavaClassVersion.mk major minor).to_jdk_version =
        "未知JDK版本 (major: " ++ toString major ++ ")") ∧
    (∃ pre post : String,
      (JavaClassVersion.mk 999 0).to_jdk_version = pre ++ "999" ++ post) ∧
    (∀ l ∈ jdkFixedLabels, (JavaClassVersion.mk 999 0).to_jdk_version ≠ l) := by
  refine ⟨?_, ?_, ⟨"未知JDK版本 (major: ", ")", by decide⟩, by decide⟩
  · intro minor
    exact ⟨rfl, rfl, rfl, rfl, rfl, rfl, rfl, rfl, rfl, rfl, rfl, rfl, rfl, rfl,
      rfl, rfl, rfl, rfl, rfl, rfl, rfl⟩
  · intro major minor h
    unfold JavaClassVersion.to_jdk_version
    dsimp only
    split <;> first | rfl | omega

/-- C8 witness: the fixed label for major 52 (any minor) and the fallback
label for major 100. -/
theorem C8_label_for_witness :
    (JavaClassVersion.mk 52 7).to_jdk_version = "JDK 8" ∧
    (JavaClassVersion.mk 100 0).to_jdk_version =
      "未知JDK版本 (major: " ++ toString 100 ++ ")" :=
  ⟨(C8_label_for.1 7).2.2.2.2.2.2.2.1, C8_label_for.2.1 100 0 (by omega)⟩

/-! ## Filesystem membership lemmas -/

theorem fsIsFile_iff_mem (fs : FS) (p : Path) :
    fsIsFile fs p = true ↔ p ∈ fs.files.map Prod.fst := by
  unfold fsIsFile
  rw [List.any_eq_true]
  constructor
  · rintro ⟨f, hf, he⟩
    exact List.mem_map.mpr ⟨f, hf, by simpa using he⟩
  · intro h
    obtain ⟨f, hf, he⟩ := List.mem_map.mp h
    exact ⟨f, hf, by simpa using he⟩

theorem mem_directChildren (fs : FS) (dir p : Path) :
    p ∈ directChildren fs dir ↔
      ((p ∈ fs.files.map Prod.fst ∨ p ∈ fs.dirs) ∧ p ≠ [] ∧ p.dropLast = dir) := by
  unfold directChildren
  rw [List.mem_filter, List.mem_append]
  simp only [Bool.and_eq_true, beq_iff_eq, Bool.not_eq_true', List.isEmpty_eq_false]

theorem pathFileStem_concat (dir : Path) (n : String) :
    pathFileStem (dir ++ [n]) = some (rustFileStem n) := by
  simp [pathFileStem, List.getLast?_concat]

theorem classFileMatches_eq_true (fs : FS) (stem : String) (p : Path) :
    classFileMatches fs stem p = true ↔
      (fsIsFile fs p = true ∧ pathExtension p = some "class" ∧
       ∃ fn, pathFileStem p = some fn ∧
         (fn = stem ∨ strStartsWith (stem ++ "$") fn = true)) := by
  unfold classFileMatches
  cases hfs : pathFileStem p with
  | none => simp [hfs]
  | some fn =>
    simp only [hfs, Bool.and_eq_true, beq_iff_eq, Bool.or_eq_true, Option.some.injEq]
    constructor
    · rintro ⟨⟨h1, h2⟩, h3⟩
      exact ⟨h1, h2, fn, rfl, h3⟩
    · rintro ⟨h1, h2, fn', hfn', h3⟩
      exact ⟨⟨h1, h2⟩, by rw [← hfn'] at h3; exact h3⟩

/-! ## Artifact resolver: C1 -/

/-- C1 (amended): for every source unit and artifact root, if the package
path (artifact root joined with the unit's parent path) does not exist,
`find_class_files` returns an empty sequence and not an error; otherwise —
provided the package path is not itself a regular file — it returns exactly
those regular files that are direct children of the package directory
(depth exactly one), carry the `class` extension, and whose base name with
the extension stripped equals the unit's stem or starts with the stem
immediately followed by `$`. -/
theorem C1_resolve_exact_matches (fs : FS) (class_dir rel : Path) (stem : String)
    (hstem : pathFileStem rel = some stem)
    (hnotfile : fsIsFile fs (class_dir ++ pathParent rel) = false) :
    (fsExists fs (class_dir ++ pathParent rel) = false →
       find_class_files fs class_dir rel = .ok []) ∧
    (fsExists fs (class_dir ++ pathParent rel) = true →
       ∃ cs, find_class_files fs class_dir rel = .ok cs ∧
         ∀ p : Path, p ∈ cs ↔
           ((∃ n : String, p = class_dir ++ pathParent rel ++ [n]) ∧
            fsIsFile fs p = true ∧ pathExtension p = some "class" ∧
            ∃ fn, pathFileStem p = some fn ∧
              (fn = stem ∨ strStartsWith (stem ++ "$") fn = true))) := by
  constructor
  · intro hne
    unfold find_class_files
    rw [hstem]
    dsimp only
    rw [if_pos hne]
  · intro hex
    unfold find_class_files
    rw [hstem]
    dsimp only
    rw [if_neg (by simp [hex])]
    refine ⟨_, rfl, ?_⟩
    intro p
    rw [List.mem_filter]
    constructor
    · rintro ⟨hmem, hpred⟩
      obtain ⟨hfile, hext, fn, hfn, hor⟩ := (classFileMatches_eq_true fs stem p).mp hpred
      rcases List.mem_cons.mp hmem with rfl | hdc
      · rw [hnotfile] at hfile
        cases hfile
      · obtain ⟨_, hne', hdl⟩ := (mem_directChildren fs _ p).mp hdc
        refine ⟨⟨p.getLast hne', ?_⟩, hfile, hext, fn, hfn, hor⟩
        rw [← hdl]
        exact (List.dropLast_append_getLast hne').symm
    · rintro ⟨⟨n, rfl⟩, hfile, hext, fn, hfn, hor⟩
      refine ⟨List.mem_cons.mpr (Or.inr ?_),
        (classFileMatches_eq_true fs stem _).mpr ⟨hfile, hext, fn, hfn, hor⟩⟩
      refine (mem_directChildren fs _ _).mpr
        ⟨Or.inl ((fsIsFile_iff_mem fs _).mp hfile), by simp, List.dropLast_concat⟩

/-- C1 counterexample to the claim as stated: in a snapshot where the
package path `out/B.class` of unit `B.class/B.java` exists as a regular
file, the path exists, yet `find_class_files` returns that very file, which
is not a direct child of the package directory (a direct child `q`
satisfies `q.dropLast = packageDir`). -/
theorem C1_resolve_counterexample :
    find_class_files fsC1x ["out"] ["B.class", "B.java"] = .ok [["out", "B.class"]] ∧
    fsExists fsC1x (["out"] ++ pathParent ["B.class", "B.java"]) = true ∧
    (["out", "B.class"] : Path).dropLast ≠ ["out"] ++ pathParent ["B.class", "B.java"] := by
  refine ⟨by rfl, by rfl, by decide⟩

/-- C1 witness: the amended characterization instantiated on a package
directory holding `Stem.class`, `Stem$1.class`, `Stem$Foo.class` and
`StemOther.class`. -/
theorem C1_resolve_witness :
    (fsExists fsC1w (["cls"] ++ pathParent ["pkg", "Stem.java"]) = false →
       find_class_files fsC1w ["cls"] ["pkg", "Stem.java"] = .ok []) ∧
    (fsExists fsC1w (["cls"] ++ pathParent ["pkg", "Stem.java"]) = true →
       ∃ cs, find_class_files fsC1w ["cls"] ["pkg", "Stem.java"] = .ok cs ∧
         ∀ p : Path, p ∈ cs ↔
           ((∃ n : String, p = ["cls"] ++ pathParent ["pkg", "Stem.java"] ++ [n]) ∧
            fsIsFile fsC1w p = true ∧ pathExtension p = some "class" ∧
            ∃ fn, pathFileStem p = some fn ∧
              (fn = "Stem" ∨ strStartsWith ("Stem" ++ "$") fn = true))) :=
  C1_resolve_exact_matches fsC1w ["cls"] ["pkg", "Stem.java"] "Stem" (by decide) (by decide)

/-! ## Tree scanner: C9 -/

theorem mem_scanned (fs : FS) (root p : Path) :
    p ∈ (walkAll fs root).filter (fun q => fsIsFile fs q) ↔
      (fsIsFile fs p = true ∧ ∃ t, p = root ++ t) := by
  rw [List.mem_filter]
  unfold walkAll
  rw [List.mem_filter]
  constructor
  · rintro ⟨⟨_, hpre⟩, hfile⟩
    exact ⟨hfile, (isPrefixOf_iff_append root p).mp hpre⟩
  · rintro ⟨hfile, t, rfl⟩
    refine ⟨⟨?_, (isPrefixOf_iff_append root _).mpr ⟨t, rfl⟩⟩, hfile⟩
    exact List.mem_append.mpr (Or.inl ((fsIsFile_iff_mem fs _).mp hfile))

/-- C9: the scan partitions the regular files reachable from the root into
exactly two lists: a file lands in the source-unit list iff its extension
is exactly `java` (case-sensitively), every other reachable regular file
lands in the other-files list, and directories appear in neither. -/
theorem C9_scan_partition (fs : FS) (root : Path) (hwf : fs.WF) :
    (∀ p : Path, p ∈ (collect_source_files fs root).1 ↔
       (fsIsFile fs p = true ∧ (∃ t, p = root ++ t) ∧ pathExtension p = some "java")) ∧
    (∀ p : Path, p ∈ (collect_source_files fs root).2 ↔
       (fsIsFile fs p = true ∧ (∃ t, p = root ++ t) ∧ pathExtension p ≠ some "java")) ∧
    (∀ d ∈ fs.dirs,
       d ∉ (collect_source_files fs root).1 ∧ d ∉ (collect_source_files fs root).2) := by
  have hjava : ∀ p : Path, p ∈ (collect_source_files fs root).1 ↔
      (fsIsFile fs p = true ∧ (∃ t, p = root ++ t) ∧ pathExtension p = some "java") := by
    intro p
    unfold collect_source_files
    rw [List.mem_filter, mem_scanned]
    unfold isJavaPath
    simp only [beq_iff_eq]
    tauto
  have hother : ∀ p : Path, p ∈ (collect_source_files fs root).2 ↔
      (fsIsFile fs p = true ∧ (∃ t, p = root ++ t) ∧ pathExtension p ≠ some "java") := by
    intro p
    unfold collect_source_files
    rw [List.mem_filter, mem_scanned]
    unfold isJavaPath
    simp only [Bool.not_eq_true', beq_eq_false_iff_ne, ne_eq]
    tauto
  refine ⟨hjava, hother, ?_⟩
  intro d hd
  have hnofile : ¬fsIsFile fs d = true := by
    intro hfile
    obtain ⟨f, hf, hfd⟩ := List.mem_map.mp ((fsIsFile_iff_mem fs d).mp hfile)
    exact (hwf.1 f hf).2.1 (hfd ▸ hd)
  constructor
  · intro hmem
    exact hnofile ((hjava d).mp hmem).1
  · intro hmem
    exact hnofile ((hother d).mp hmem).1

/-- C9 witness: the partition instantiated on a small well-formed tree with
java files at two depths and one non-java file. -/
theorem C9_scan_partition_witness :
    (∀ p : Path, p ∈ (collect_source_files fsC9w ["r"]).1 ↔
       (fsIsFile fsC9w p = true ∧ (∃ t, p = ["r"] ++ t) ∧ pathExtension p = some "java")) ∧
    (∀ p : Path, p ∈ (collect_source_files fsC9w ["r"]).2 ↔
       (fsIsFile fsC9w p = true ∧ (∃ t, p = ["r"] ++ t) ∧ pathExtension p ≠ some "java")) ∧
    (∀ d ∈ fsC9w.dirs,
       d ∉ (collect_source_files fsC9w ["r"]).1 ∧ d ∉ (collect_source_files fsC9w ["r"]).2) :=
  C9_scan_partition fsC9w ["r"] (by decide)

/-! ## Abort policy: C3 -/

theorem mem_collect_src_isPrefixOf (fs : FS) (sd j : Path)
    (h : j ∈ (collect_source_files fs sd).1) : sd.isPrefixOf j = true := by
  unfold collect_source_files at h
  have h1 := (List.mem_filter.mp h).1
  have h2 := (List.mem_filter.mp h1).1
  unfold walkAll at h2
  exact (List.mem_filter.mp h2).2

theorem resolveAll_error_of_empty (fs : FS) (sd cd : Path) (js : List Path)
    (h : ∃ j ∈ js, find_class_files fs cd (j.drop sd.length) = .ok []) :
    ∃ e, resolveAll fs sd cd js = .error e := by
  induction js with
  | nil => simp at h
  | cons j rest ih =>
    by_cases hp : sd.isPrefixOf j = true
    · cases hf : find_class_files fs cd (j.drop sd.length) with
      | error e =>
        refine ⟨e, ?_⟩
        unfold resolveAll
        dsimp only
        rw [if_pos hp, hf]
      | ok cs =>
        cases cs with
        | nil =>
          refine ⟨"部分Java文件找不到对应的class文件，操作取消", ?_⟩
          unfold resolveAll
          dsimp only
          rw [if_pos hp, hf]
        | cons c cs' =>
          obtain ⟨j', hj', hres⟩ := h
          rcases List.mem_cons.mp hj' with rfl | hmem
          · rw [hf] at hres
            simp at hres
          · obtain ⟨e, he⟩ := ih ⟨j', hmem, hres⟩
            refine ⟨e, ?_⟩
            unfold resolveAll
            dsimp only
            rw [if_pos hp, hf, he]
    · refine ⟨"无法获取相对路径", ?_⟩
      unfold resolveAll
      dsimp only
      rw [if_neg hp]

/-- C3: if any discovered source unit resolves to zero artifacts, the run
aborts with an error and its copy trace is empty — no file at all reaches
the output directory, however many other units would have matched. -/
theorem C3_abort_before_copy (fs : FS) (source_dir class_dir output_dir : Path)
    (h : ∃ j ∈ (collect_source_files fs source_dir).1,
           find_class_files fs class_dir (j.drop source_dir.length) = .ok []) :
    (runMain fs source_dir class_dir output_dir).1 = [] ∧
    ∃ e, (runMain fs source_dir class_dir output_dir).2 = .error e := by
  simp only [runMain]
  by_cases hsd : fsExists fs source_dir = false
  · rw [if_pos hsd]
    exact ⟨rfl, _, rfl⟩
  · rw [if_neg hsd]
    by_cases hcd : fsExists fs class_dir = false
    · rw [if_pos hcd]
      exact ⟨rfl, _, rfl⟩
    · rw [if_neg hcd]
      obtain ⟨e, he⟩ := resolveAll_error_of_empty fs source_dir class_dir _ h
      rw [he]
      exact ⟨rfl, e, rfl⟩

/-- C3 witness: unit `A.java` has no artifact while its sibling `B.java`
would match; the run copies nothing and errors. -/
theorem C3_abort_before_copy_witness :
    (runMain fsC3w ["s"] ["c"] ["o"]).1 = [] ∧
    ∃ e, (runMain fsC3w ["s"] ["c"] ["o"]).2 = .error e :=
  C3_abort_before_copy fsC3w ["s"] ["c"] ["o"] ⟨["s", "A.java"], by decide, by rfl⟩

/-! ## Copy-phase fold lemmas -/

theorem copyNonJavaGo_acts (fs : FS) (sd od : Path) :
    ∀ (files : List Path) (n : Nat),
      (copyNonJavaGo fs sd od files).2 = .ok n →
      (copyNonJavaGo fs sd od files).1.map Prod.fst = files := by
  intro files
  induction files with
  | nil => intro n _; rfl
  | cons f rest ih =>
    intro n h
    unfold copyNonJavaGo at h ⊢
    by_cases hp : sd.isPrefixOf f = true
    · rw [if_pos hp] at h ⊢
      cases hc : fsContent fs f with
      | none =>
        rw [hc] at h
        simp at h
      | some bytes =>
        rw [hc] at h
        dsimp only at h ⊢
        cases hr : (copyNonJavaGo fs sd od rest).2 with
        | error e =>
          rw [hr] at h
          simp [Except.map] at h
        | ok m =>
          rw [List.map_cons, ih m hr]
    · rw [if_neg hp] at h
      simp at h

theorem processArtifacts_acts (fs : FS) (cd od : Path) :
    ∀ (pairs : List (Path × Path)) (tally : List (String × List Path)) (n : Nat),
      (processArtifacts fs cd od pairs tally).2.2.2 = .ok n →
      (processArtifacts fs cd od pairs tally).1.map Prod.fst = pairs.map Prod.snd := by
  intro pairs
  induction pairs with
  | nil => intro tally n _; rfl
  | cons pr rest ih =>
    intro tally n h
    obtain ⟨jr, cf⟩ := pr
    unfold processArtifacts at h ⊢
    by_cases hp : cd.isPrefixOf cf = true
    · rw [if_pos hp] at h ⊢
      cases hc : fsContent fs cf with
      | none =>
        rw [hc] at h
        simp at h
      | some bytes =>
        rw [hc] at h
        dsimp only at h ⊢
        cases hr : (processArtifacts fs cd od rest (classifyVersion fs cf tally).2).2.2.2 with
        | error e =>
          rw [hr] at h
          simp [Except.map] at h
        | ok m =>
          rw [List.map_cons, ih _ m hr]
          rfl
    · rw [if_neg hp] at h
      simp at h

theorem find_class_files_ext (fs : FS) (cd rel : Path) (cs : List Path)
    (h : find_class_files fs cd rel = .ok cs) :
    ∀ c ∈ cs, pathExtension c = some "class" := by
  intro c hc
  unfold find_class_files at h
  cases hstem : pathFileStem rel with
  | none =>
    rw [hstem] at h
    cases h
  | some stem =>
    rw [hstem] at h
    dsimp only at h
    by_cases hex : fsExists fs (cd ++ pathParent rel) = false
    · rw [if_pos hex] at h
      injection h with h
      subst h
      cases hc
    · rw [if_neg hex] at h
      injection h with h
      subst h
      have := (List.mem_filter.mp hc).2
      exact ((classFileMatches_eq_true fs stem c).mp this).2.1

theorem resolveAll_class_ext (fs : FS) (sd cd : Path) :
    ∀ (js : List Path) (resolved : List (Path × List Path)),
      resolveAll fs sd cd js = .ok resolved →
      ∀ rc ∈ resolved, ∀ c ∈ rc.2, pathExtension c = some "class" := by
  intro js
  induction js with
  | nil =>
    intro resolved h
    injection h with h
    subst h
    intro rc hrc
    cases hrc
  | cons j rest ih =>
    intro resolved h
    unfold resolveAll at h
    by_cases hp : sd.isPrefixOf j = true
    · rw [if_pos hp] at h
      dsimp only at h
      cases hf : find_class_files fs cd (j.drop sd.length) with
      | error e =>
        rw [hf] at h
        cases h
      | ok cs =>
        rw [hf] at h
        cases cs with
        | nil => cases h
        | cons c0 cs' =>
          cases hr : resolveAll fs sd cd rest with
          | error e =>
            rw [hr] at h
            cases h
          | ok rs =>
            rw [hr] at h
            injection h with h
            subst h
            intro rc hrc
            rcases List.mem_cons.mp hrc with rfl | hmem
            · exact find_class_files_ext fs cd _ _ hf
            · exact ih rs hr rc hmem
    · rw [if_neg hp] at h
      cases h

theorem mem_collect_other_not_java (fs : FS) (sd p : Path)
    (h : p ∈ (collect_source_files fs sd).2) : pathExtension p ≠ some "java" := by
  unfold collect_source_files at h
  have := (List.mem_filter.mp h).2
  simp only [Bool.not_eq_true', isJavaPath, beq_eq_false_iff_ne, ne_eq] at this
  exact this

theorem pairs_map_snd (resolved : List (Path × List Path)) :
    (resolved.flatMap (fun rc => rc.2.map (fun c => (rc.1, c)))).map Prod.snd =
      resolved.flatMap (fun rc => rc.2) := by
  rw [List.map_flatMap]
  congr 1
  funext rc
  rw [List.map_map]
  simp

/-! ## Copy-phase exactness: C10 -/

/-- C10: in every successful run the copy trace consists of exactly the
non-source files discovered under the source root followed by the matched
artifact files, and none of the copied files carries the `java` source
extension — source units are never copied. -/
theorem C10_no_source_unit_copied (fs : FS) (sd cd od : Path)
    (acts : List (Path × Path)) (s : Summary)
    (h : runMain fs sd cd od = (acts, .ok s)) :
    ∃ resolved, resolveAll fs sd cd (collect_source_files fs sd).1 = .ok resolved ∧
      acts.map Prod.fst =
        (collect_source_files fs sd).2 ++ resolved.flatMap (fun rc => rc.2) ∧
      ∀ p ∈ acts.map Prod.fst, pathExtension p ≠ some "java" := by
  simp only [runMain] at h
  by_cases hsd : fsExists fs sd = false
  · rw [if_pos hsd] at h
    simp at h
  · rw [if_neg hsd] at h
    by_cases hcd : fsExists fs cd = false
    · rw [if_pos hcd] at h
      simp at h
    · rw [if_neg hcd] at h
      cases hres : resolveAll fs sd cd (collect_source_files fs sd).1 with
      | error e =>
        rw [hres] at h
        simp at h
      | ok resolved =>
        rw [hres] at h
        dsimp only at h
        cases hnj : (copyNonJavaGo fs sd od (collect_source_files fs sd).2).2 with
        | error e =>
          rw [hnj] at h
          simp at h
        | ok njCount =>
          rw [hnj] at h
          dsimp only at h
          cases hpa : (processArtifacts fs cd od
              (resolved.flatMap (fun rc => rc.2.map (fun c => (rc.1, c)))) []).2.2.2 with
          | error e =>
            rw [hpa] at h
            simp at h
          | ok cCount =>
            rw [hpa] at h
            have hacts : (copyNonJavaGo fs sd od (collect_source_files fs sd).2).1 ++
                (processArtifacts fs cd od
                  (resolved.flatMap (fun rc => rc.2.map (fun c => (rc.1, c)))) []).1 = acts := by
              have := congrArg Prod.fst h
              simpa using this
            have hmap : acts.map Prod.fst =
                (collect_source_files fs sd).2 ++ resolved.flatMap (fun rc => rc.2) := by
              rw [← hacts, List.map_append,
                  copyNonJavaGo_acts fs sd od _ njCount hnj,
                  processArtifacts_acts fs cd od _ _ cCount hpa,
                  pairs_map_snd]
            refine ⟨resolved, rfl, hmap, ?_⟩
            intro p hp
            rw [hmap] at hp
            rcases List.mem_append.mp hp with hnjm | hcm
            · exact mem_collect_other_not_java fs sd p hnjm
            · obtain ⟨rc, hrc, hcmem⟩ := List.mem_flatMap.mp hcm
              have := resolveAll_class_ext fs sd cd _ resolved hres rc hrc p hcmem
              rw [this]
              simp

/-- C10 witness: one unit, one artifact, one auxiliary file: the trace is
exactly the auxiliary file followed by the artifact, with no java file. -/
theorem C10_no_source_unit_copied_witness :
    ∃ resolved,
      resolveAll fsC10w ["s"] ["c"] (collect_source_files fsC10w ["s"]).1 = .ok resolved ∧
      actsC10.map Prod.fst =
        (collect_source_files fsC10w ["s"]).2 ++ resolved.flatMap (fun rc => rc.2) ∧
      ∀ p ∈ actsC10.map Prod.fst, pathExtension p ≠ some "java" :=
  C10_no_source_unit_copied fsC10w ["s"] ["c"] ["o"] actsC10 sC10 (by rfl)

/-! ## Tally lemmas and the multi-version warning: C7 -/

theorem decodeLabelOf_eq_none (fs : FS) (p : Path) (bytes : List Nat) (e : ReadVersionError)
    (hc : fsContent fs p = some bytes) (hr : read_class_file_version bytes = .error e) :
    decodeLabelOf fs p = none := by
  unfold decodeLabelOf
  rw [hc]
  dsimp only
  rw [hr]

theorem decodeLabelOf_eq_some (fs : FS) (p : Path) (bytes : List Nat) (v : JavaClassVersion)
    (hc : fsContent fs p = some bytes) (hr : read_class_file_version bytes = .ok v) :
    decodeLabelOf fs p = some (v.to_jdk_version, p) := by
  unfold decodeLabelOf
  rw [hc]
  dsimp only
  rw [hr]

theorem classifyVersion_ok (fs : FS) (p : Path) (bytes : List Nat) (v : JavaClassVersion)
    (tally : List (String × List Path))
    (hc : fsContent fs p = some bytes) (hr : read_class_file_version bytes = .ok v) :
    classifyVersion fs p tally = (v.to_jdk_version, tallyAdd tally v.to_jdk_version p) := by
  unfold classifyVersion
  rw [hc]
  dsimp only
  rw [hr]

theorem classifyVersion_err (fs : FS) (p : Path) (bytes : List Nat) (e : ReadVersionError)
    (tally : List (String × List Path))
    (hc : fsContent fs p = some bytes) (hr : read_class_file_version bytes = .error e) :
    classifyVersion fs p tally = ("未知版本", tally) := by
  unfold classifyVersion
  rw [hc]
  dsimp only
  rw [hr]

theorem tallyLookup_cons_pos (k : String) (ps : List Path) (rest : List (String × List Path))
    (l : String) (h : k = l) : tallyLookup ((k, ps) :: rest) l = ps := by
  unfold tallyLookup
  rw [List.find?_cons_of_pos _ (by simp [h])]

theorem tallyLookup_cons_neg (k : String) (ps : List Path) (rest : List (String × List Path))
    (l : String) (h : ¬k = l) : tallyLookup ((k, ps) :: rest) l = tallyLookup rest l := by
  unfold tallyLookup
  rw [List.find?_cons_of_neg _ (by simp [h])]

theorem tallyAdd_keys (l : String) (p : Path) :
    ∀ t : List (String × List Path),
      (tallyAdd t l p).map Prod.fst =
        if l ∈ t.map Prod.fst then t.map Prod.fst else t.map Prod.fst ++ [l] := by
  intro t
  induction t with
  | nil => simp [tallyAdd]
  | cons kv rest ih =>
    obtain ⟨k, ps⟩ := kv
    unfold tallyAdd
    by_cases hk : k = l
    · subst hk
      simp
    · rw [if_neg hk, List.map_cons, List.map_cons, ih]
      by_cases hmem : l ∈ rest.map Prod.fst
      · rw [if_pos hmem, if_pos (by simp [hmem])]
      · have hnk : l ∉ (k :: rest.map Prod.fst) := by
          rw [List.mem_cons]
          rintro (hh | hh)
          · exact hk hh.symm
          · exact hmem hh
        rw [if_neg hmem, if_neg hnk, List.cons_append]

theorem tallyAdd_lookup (l l' : String) (p : Path) :
    ∀ t : List (String × List Path),
      tallyLookup (tallyAdd t l p) l' =
        if l' = l then tallyLookup t l' ++ [p] else tallyLookup t l' := by
  intro t
  induction t with
  | nil =>
    by_cases h : l' = l
    · subst h
      rw [if_pos rfl]
      show tallyLookup [(l', [p])] l' = tallyLookup [] l' ++ [p]
      rw [tallyLookup_cons_pos _ _ _ _ rfl]
      rfl
    · rw [if_neg h]
      show tallyLookup [(l, [p])] l' = tallyLookup [] l'
      rw [tallyLookup_cons_neg _ _ _ _ (fun hh => h hh.symm)]
  | cons kv rest ih =>
    obtain ⟨k, ps⟩ := kv
    by_cases hk : k = l
    · have hadd : tallyAdd ((k, ps) :: rest) l p = (k, ps ++ [p]) :: rest := by
        unfold tallyAdd
        rw [if_pos hk]
      rw [hadd]
      by_cases h : l' = k
      · rw [tallyLookup_cons_pos k (ps ++ [p]) rest l' h.symm,
            tallyLookup_cons_pos k ps rest l' h.symm, if_pos (h.trans hk)]
      · rw [tallyLookup_cons_neg k (ps ++ [p]) rest l' (fun hh => h hh.symm),
            tallyLookup_cons_neg k ps rest l' (fun hh => h hh.symm),
            if_neg (fun hl => h (hl.trans hk.symm))]
    · have hadd : tallyAdd ((k, ps) :: rest) l p = (k, ps) :: tallyAdd rest l p := by
        simp only [tallyAdd]
        rw [if_neg hk]
      rw [hadd]
      by_cases h : l' = k
      · rw [tallyLookup_cons_pos k ps (tallyAdd rest l p) l' h.symm,
            tallyLookup_cons_pos k ps rest l' h.symm,
            if_neg (fun hl => hk (h.symm.trans hl))]
      · rw [tallyLookup_cons_neg k ps (tallyAdd rest l p) l' (fun hh => h hh.symm),
            tallyLookup_cons_neg k ps rest l' (fun hh => h hh.symm), ih]

theorem tally_mem_lookup :
    ∀ (t : List (String × List Path)), (t.map Prod.fst).Nodup →
      ∀ (l : String) (fl : List Path), (l, fl) ∈ t → tallyLookup t l = fl := by
  intro t
  induction t with
  | nil =>
    intro _ l fl hmem
    cases hmem
  | cons kv rest ih =>
    intro hnd l fl hmem
    obtain ⟨k, ps⟩ := kv
    have hnd' : k ∉ rest.map Prod.fst ∧ (rest.map Prod.fst).Nodup := by
      rw [List.map_cons, List.nodup_cons] at hnd
      exact hnd
    rcases List.mem_cons.mp hmem with heq | hrest
    · have h1 : l = k := congrArg Prod.fst heq
      have h2 : fl = ps := congrArg Prod.snd heq
      rw [tallyLookup_cons_pos k ps rest l h1.symm]
      exact h2.symm
    · have hk : ¬k = l := by
        intro hkl
        subst hkl
        exact hnd'.1 (List.mem_map.mpr ⟨(k, fl), hrest, rfl⟩)
      rw [tallyLookup_cons_neg k ps rest l hk]
      exact ih hnd'.2 l fl hrest

theorem tallyFold_keys_mem (dec : List (String × Path)) :
    ∀ (t : List (String × List Path)) (l : String),
      l ∈ (tallyFold t dec).map Prod.fst ↔ l ∈ t.map Prod.fst ∨ l ∈ dec.map Prod.fst := by
  induction dec with
  | nil =>
    intro t l
    simp [tallyFold]
  | cons q rest ih =>
    intro t l
    rw [show tallyFold t (q :: rest) = tallyFold (tallyAdd t q.1 q.2) rest from rfl, ih,
        tallyAdd_keys]
    by_cases hmem : q.1 ∈ t.map Prod.fst
    · rw [if_pos hmem]
      simp only [List.map_cons, List.mem_cons]
      constructor
      · rintro (h | h)
        · exact Or.inl h
        · exact Or.inr (Or.inr h)
      · rintro (h | h | h)
        · exact Or.inl h
        · exact Or.inl (h ▸ hmem)
        · exact Or.inr h
    · rw [if_neg hmem]
      simp only [List.mem_append, List.mem_singleton, List.map_cons, List.mem_cons]
      tauto

theorem tallyFold_keys_nodup (dec : List (String × Path)) :
    ∀ t : List (String × List Path),
      (t.map Prod.fst).Nodup → ((tallyFold t dec).map Prod.fst).Nodup := by
  induction dec with
  | nil =>
    intro t h
    exact h
  | cons q rest ih =>
    intro t h
    show ((tallyFold (tallyAdd t q.1 q.2) rest).map Prod.fst).Nodup
    apply ih
    rw [tallyAdd_keys]
    by_cases hmem : q.1 ∈ t.map Prod.fst
    · rw [if_pos hmem]
      exact h
    · rw [if_neg hmem, List.nodup_append]
      exact ⟨h, List.nodup_singleton _, by simpa [List.disjoint_singleton] using hmem⟩

theorem tallyFold_lookup (dec : List (String × Path)) :
    ∀ (t : List (String × List Path)) (l : String),
      tallyLookup (tallyFold t dec) l =
        tallyLookup t l ++ (dec.filter (fun q => q.1 == l)).map Prod.snd := by
  induction dec with
  | nil =>
    intro t l
    simp [tallyFold]
  | cons q rest ih =>
    intro t l
    rw [show tallyFold t (q :: rest) = tallyFold (tallyAdd t q.1 q.2) rest from rfl, ih,
        tallyAdd_lookup]
    by_cases h : l = q.1
    · rw [if_pos h, List.filter_cons_of_pos (by simp [h.symm]), List.map_cons,
          List.append_assoc, List.singleton_append]
    · rw [if_neg h, List.filter_cons_of_neg (by simp; exact fun hq => h hq.symm)]

theorem processArtifacts_tally (fs : FS) (cd od : Path) :
    ∀ (pairs : List (Path × Path)) (tally : List (String × List Path)) (n : Nat),
      (processArtifacts fs cd od pairs tally).2.2.2 = .ok n →
      (processArtifacts fs cd od pairs tally).2.2.1 =
        tallyFold tally (decodedLabelPairs fs (pairs.map Prod.snd)) := by
  intro pairs
  induction pairs with
  | nil =>
    intro tally n _
    rfl
  | cons pr rest ih =>
    intro tally n h
    obtain ⟨jr, cf⟩ := pr
    unfold processArtifacts at h ⊢
    by_cases hp : cd.isPrefixOf cf = true
    · rw [if_pos hp] at h ⊢
      cases hc : fsContent fs cf with
      | none =>
        rw [hc] at h
        simp at h
      | some bytes =>
        rw [hc] at h
        dsimp only at h ⊢
        cases hr : (processArtifacts fs cd od rest (classifyVersion fs cf tally).2).2.2.2 with
        | error e =>
          rw [hr] at h
          simp [Except.map] at h
        | ok m =>
          rw [ih _ m hr, List.map_cons]
          show tallyFold (classifyVersion fs cf tally).2 (decodedLabelPairs fs (rest.map Prod.snd)) =
            tallyFold tally (decodedLabelPairs fs (cf :: rest.map Prod.snd))
          unfold decodedLabelPairs
          rw [List.filterMap_cons]
          cases hread : read_class_file_version bytes with
          | ok v =>
            rw [decodeLabelOf_eq_some fs cf bytes v hc hread,
                classifyVersion_ok fs cf bytes v tally hc hread]
            try rfl
          | error e =>
            rw [decodeLabelOf_eq_none fs cf bytes e hc hread,
                classifyVersion_err fs cf bytes e tally hc hread]
            try rfl
    · rw [if_neg hp] at h
      simp at h

theorem nodup_one_lt_length_iff {α : Type _} (ks : List α) (hnd : ks.Nodup) :
    1 < ks.length ↔ ∃ a ∈ ks, ∃ b ∈ ks, a ≠ b := by
  cases ks with
  | nil => simp
  | cons a rest =>
    cases rest with
    | nil => simp
    | cons b rest2 =>
      constructor
      · intro _
        refine ⟨a, by simp, b, by simp, ?_⟩
        intro hab
        subst hab
        exact (List.nodup_cons.mp hnd).1 (by simp)
      · intro _
        simp only [List.length_cons]
        omega

/-- C7: on every successful run, the multi-version warning fires exactly
when two successfully decoded artifacts carry different toolchain labels;
the summary lists each occurring label once, and the files recorded under a
label are exactly the decoded artifacts bearing it (their number is the
per-label count). -/
theorem C7_multi_version_warning (fs : FS) (sd cd od : Path)
    (acts : List (Path × Path)) (s : Summary)
    (h : runMain fs sd cd od = (acts, .ok s)) :
    ∃ resolved, resolveAll fs sd cd (collect_source_files fs sd).1 = .ok resolved ∧
      ((s.multiVersionWarning = true ↔
         ∃ q1 ∈ decodedLabelPairs fs (resolved.flatMap fun rc => rc.2),
         ∃ q2 ∈ decodedLabelPairs fs (resolved.flatMap fun rc => rc.2), q1.1 ≠ q2.1) ∧
       (s.jdkVersions.map Prod.fst).Nodup ∧
       (∀ (l : String) (fl : List Path), (l, fl) ∈ s.jdkVersions →
          fl = ((decodedLabelPairs fs (resolved.flatMap fun rc => rc.2)).filter
                 (fun q => q.1 == l)).map Prod.snd)) := by
  simp only [runMain] at h
  by_cases hsd : fsExists fs sd = false
  · rw [if_pos hsd] at h
    simp at h
  · rw [if_neg hsd] at h
    by_cases hcd : fsExists fs cd = false
    · rw [if_pos hcd] at h
      simp at h
    · rw [if_neg hcd] at h
      cases hres : resolveAll fs sd cd (collect_source_files fs sd).1 with
      | error e =>
        rw [hres] at h
        simp at h
      | ok resolved =>
        rw [hres] at h
        dsimp only at h
        cases hnj : (copyNonJavaGo fs sd od (collect_source_files fs sd).2).2 with
        | error e =>
          rw [hnj] at h
          simp at h
        | ok njCount =>
          rw [hnj] at h
          dsimp only at h
          cases hpa : (processArtifacts fs cd od
              (resolved.flatMap (fun rc => rc.2.map (fun c => (rc.1, c)))) []).2.2.2 with
          | error e =>
            rw [hpa] at h
            simp at h
          | ok cCount =>
            rw [hpa] at h
            have hs : s = { numSources := resolved.length
                          , numClass := cCount
                          , numNonJava := njCount
                          , totalCopied := cCount + njCount
                          , jdkVersions := (processArtifacts fs cd od
                              (resolved.flatMap (fun rc => rc.2.map (fun c => (rc.1, c)))) []).2.2.1
                          , multiVersionWarning := decide (1 < (processArtifacts fs cd od
                              (resolved.flatMap (fun rc => rc.2.map (fun c => (rc.1, c)))) []).2.2.1.length)
                          , artifactReports := (processArtifacts fs cd od
                              (resolved.flatMap (fun rc => rc.2.map (fun c => (rc.1, c)))) []).2.1 } := by
              have := congrArg Prod.snd h
              simpa using this.symm
            have htally : (processArtifacts fs cd od
                (resolved.flatMap (fun rc => rc.2.map (fun c => (rc.1, c)))) []).2.2.1 =
                tallyFold [] (decodedLabelPairs fs (resolved.flatMap fun rc => rc.2)) := by
              rw [processArtifacts_tally fs cd od _ [] cCount hpa, pairs_map_snd]
            have hkeysnd : (((tallyFold [] (decodedLabelPairs fs
                (resolved.flatMap fun rc => rc.2))).map Prod.fst)).Nodup :=
              tallyFold_keys_nodup _ [] (by simp)
            have hkeysmem : ∀ l : String,
                l ∈ (tallyFold [] (decodedLabelPairs fs
                  (resolved.flatMap fun rc => rc.2))).map Prod.fst ↔
                l ∈ (decodedLabelPairs fs (resolved.flatMap fun rc => rc.2)).map Prod.fst := by
              intro l
              rw [tallyFold_keys_mem]
              simp
            refine ⟨resolved, rfl, ?_, ?_, ?_⟩
            · rw [hs]
              dsimp only
              rw [decide_eq_true_iff, htally,
                  show (tallyFold [] (decodedLabelPairs fs
                    (resolved.flatMap fun rc => rc.2))).length =
                    ((tallyFold [] (decodedLabelPairs fs
                      (resolved.flatMap fun rc => rc.2))).map Prod.fst).length
                    from (List.length_map _ _).symm,
                  nodup_one_lt_length_iff _ hkeysnd]
              constructor
              · rintro ⟨a, ha, b, hb, hab⟩
                obtain ⟨q1, hq1, hq1a⟩ := List.mem_map.mp ((hkeysmem a).mp ha)
                obtain ⟨q2, hq2, hq2b⟩ := List.mem_map.mp ((hkeysmem b).mp hb)
                exact ⟨q1, hq1, q2, hq2, by rw [hq1a, hq2b]; exact hab⟩
              · rintro ⟨q1, hq1, q2, hq2, hne⟩
                exact ⟨q1.1, (hkeysmem q1.1).mpr (List.mem_map.mpr ⟨q1, hq1, rfl⟩),
                       q2.1, (hkeysmem q2.1).mpr (List.mem_map.mpr ⟨q2, hq2, rfl⟩), hne⟩
            · rw [hs]
              dsimp only
              rw [htally]
              exact hkeysnd
            · intro l fl hmem
              rw [hs] at hmem
              dsimp only at hmem
              rw [htally] at hmem
              have := tally_mem_lookup _ hkeysnd l fl hmem
              rw [tallyFold_lookup] at this
              simpa using this.symm

/-- C7 witness: the warning characterization instantiated on a run whose
two artifacts decode to JDK 8 and JDK 11. -/
theorem C7_multi_version_warning_witness :
    ∃ resolved,
      resolveAll fsC7w ["s"] ["c"] (collect_source_files fsC7w ["s"]).1 = .ok resolved ∧
      ((sC7.multiVersionWarning = true ↔
         ∃ q1 ∈ decodedLabelPairs fsC7w (resolved.flatMap fun rc => rc.2),
         ∃ q2 ∈ decodedLabelPairs fsC7w (resolved.flatMap fun rc => rc.2), q1.1 ≠ q2.1) ∧
       (sC7.jdkVersions.map Prod.fst).Nodup ∧
       (∀ (l : String) (fl : List Path), (l, fl) ∈ sC7.jdkVersions →
          fl = ((decodedLabelPairs fsC7w (resolved.flatMap fun rc => rc.2)).filter
                 (fun q => q.1 == l)).map Prod.snd)) :=
  C7_multi_version_warning fsC7w ["s"] ["c"] ["o"] actsC7 sC7 (by decide)

/-! ## End-to-end scenario: C5 -/

/-- C5 counterexample to the claim as stated: in the specified scenario
(one unit `pkg/A.java`, two non-source files, artifacts `pkg/A.class` with
major 52 and `pkg/A$1.class` with major 55) the run copies 4 files — the
two artifacts and the two non-source files — not 3. -/
theorem C5_end_to_end_counterexample :
    runMain fsC5 ["s"] ["c"] ["o"] = (actsC5, .ok sC5) ∧
    sC5.totalCopied = 4 ∧ actsC5.length = 4 ∧
    sC5.totalCopied ≠ 3 ∧ actsC5.length ≠ 3 :=
  ⟨by decide, by decide, by decide, by decide, by decide⟩

/-- C5 (amended): the scenario's run copies 4 files total (two artifacts
plus two non-source files), reports both artifacts under source unit
`pkg/A.java`, and emits the multi-version warning with one file counted
under the JDK 8 label and one under the JDK 11 label. -/
theorem C5_end_to_end :
    runMain fsC5 ["s"] ["c"] ["o"] = (actsC5, .ok sC5) ∧
    actsC5.length = 4 ∧ sC5.totalCopied = 4 ∧
    (⟨["pkg", "A.java"], ["pkg", "A.class"], 8, "JDK 8"⟩ : ArtifactReport) ∈
      sC5.artifactReports ∧
    (⟨["pkg", "A.java"], ["pkg", "A$1.class"], 8, "JDK 11"⟩ : ArtifactReport) ∈
      sC5.artifactReports ∧
    sC5.multiVersionWarning = true ∧
    tallyLookup sC5.jdkVersions "JDK 8" = [["c", "pkg", "A.class"]] ∧
    tallyLookup sC5.jdkVersions "JDK 11" = [["c", "pkg", "A$1.class"]] :=
  ⟨by decide, by decide, by decide, by decide, by decide, by decide, by decide, by decide⟩

/-! ## Decode failures are non-fatal: C6 -/

/-- C6: a header-decode failure for one artifact is non-fatal: in general
`classifyVersion` downgrades the failure to the unknown-version marker and
leaves the tally untouched; concretely, in a run where `A$2.class` has a
wrong magic number next to two decodable artifacts, the run still
succeeds, `A$2.class` is still copied and is reported with the
unknown-version marker, the multi-version warning (computed from the two
decoded artifacts) still fires, and `A$2.class` appears in no tally
entry. -/
theorem C6_decode_failure_nonfatal :
    (∀ (fs : FS) (p : Path) (t : List (String × List Path)) (bytes : List Nat)
       (e : ReadVersionError),
       fsContent fs p = some bytes → read_class_file_version bytes = .error e →
       classifyVersion fs p t = ("未知版本", t)) ∧
    runMain fsC6 ["s"] ["c"] ["o"] = (actsC6, .ok sC6) ∧
    ((["c", "A$2.class"], (["o", "A$2.class"] : Path)) ∈ actsC6) ∧
    ((⟨["A.java"], ["A$2.class"], 8, "未知版本"⟩ : ArtifactReport) ∈ sC6.artifactReports) ∧
    sC6.multiVersionWarning = true ∧
    (∀ kv ∈ sC6.jdkVersions, (["c", "A$2.class"] : Path) ∉ kv.2) := by
  refine ⟨?_, by decide, by decide, by decide, by decide, by decide⟩
  intro fs p t bytes e hc hr
  exact classifyVersion_err fs p bytes e t hc hr

/-- C6 witness: the general downgrade fact applied to the concrete
wrong-magic artifact, plus the concrete successful run. -/
theorem C6_decode_failure_nonfatal_witness :
    classifyVersion fsC6 ["c", "A$2.class"] [] = ("未知版本", []) ∧
    runMain fsC6 ["s"] ["c"] ["o"] = (actsC6, .ok sC6) :=
  ⟨C6_decode_failure_nonfatal.1 fsC6 ["c", "A$2.class"] [] [1, 2, 3, 4, 5, 6, 7, 8]
     .invalidMagicNumber (by decide) (by decide),
   C6_decode_failure_nonfatal.2.1⟩

end CopySrcToClass
